import Mathlib

/-!
Verification of the expense-tracker batch pipeline
(src/data/audit_analyzer.py and src/data/analyze_transactions.py).

Monetary amounts (Python Decimal) are modelled as exact rationals.
Free text is modelled as Lean strings; Python slicing s[:n] is modelled
as taking the first n characters of the character list.
-/

namespace ExpenseTracker

/-! ### Text helpers -/

/-- Python str.upper, on a character list. -/
def upper (s : List Char) : List Char := s.map Char.toUpper

/-- Python substring containment: p in s. -/
def isSubstr (p s : List Char) : Bool := s.tails.any (fun t => p.isPrefixOf t)

/-- Python s[:n]. -/
def takeStr (s : String) (n : Nat) : String := String.mk (s.toList.take n)

/-! ### Data model (audit_analyzer.py load_data, rows already split into fields).
Fields not used by any analysis stage (post_date, reference_no,
account_source, imported_at, hash) are omitted. -/

structure Txn where
  txn_id : String
  value_date : String
  description : String
  debit : ℚ
  credit : ℚ
  balance : ℚ
  txn_type : String
deriving DecidableEq

instance : Inhabited Txn := ⟨⟨"", "", "", 0, 0, 0, ""⟩⟩

/-- load_data: if txn_type == credit the row goes to self.credits. -/
def creditsOf (txns : List Txn) : List Txn :=
  txns.filter (fun t => t.txn_type = "credit")

/-- load_data: every other row goes to self.debits. -/
def debitsOf (txns : List Txn) : List Txn :=
  txns.filter (fun t => ¬ t.txn_type = "credit")

/-! ### Merchant and category classifier (audit_analyzer.py lines 58-174) -/

/-- FinancialAuditor.extract_merchant: ordered if/elif chain over the
upper-cased description, first match wins, OTHER as fallback. -/
def extract_merchant (description : String) : String :=
  let desc := upper description.toList
  if isSubstr "POONAM M".toList desc then "POONAM M"
  else if isSubstr "AGI READ".toList desc then "AGI READ"
  else if isSubstr "MOHIT S".toList desc then "MOHIT S"
  else if isSubstr "JASVIN T".toList desc then "JASVIN T"
  else if isSubstr "CHHAVI".toList desc then "CHHAVI"
  else if isSubstr "GOOGLE".toList desc then "GOOGLE"
  else if isSubstr "AARYAN".toList desc then "AARYAN"
  else if isSubstr "ZEPTO".toList desc then "ZEPTO"
  else if isSubstr "SWIGGY".toList desc then "SWIGGY"
  else if isSubstr "AMAZON".toList desc then "AMAZON"
  else if isSubstr "DOMINO".toList desc then "DOMINOS"
  else if isSubstr "THAPAR".toList desc then "THAPAR INSTITUTE"
  else if isSubstr "GROWW".toList desc || isSubstr "MUTUAL F".toList desc then "GROWW/INVESTMENTS"
  else if isSubstr "AIRTEL".toList desc then "AIRTEL"
  else if isSubstr "APPLE".toList desc then "APPLE"
  else if isSubstr "NETFLIX".toList desc then "NETFLIX"
  else if isSubstr "WRAP CHIP".toList desc then "WRAP CHIP"
  else if isSubstr "HUNGERBOX".toList desc || isSubstr "HUNGER BO X".toList desc then "HUNGERBOX"
  else if isSubstr "BLINKIT".toList desc then "BLINKIT"
  else if isSubstr "ZUDIO".toList desc then "ZUDIO"
  else if isSubstr "MCDONALDS".toList desc || isSubstr "MCDONALD".toList desc then "MCDONALDS"
  else if isSubstr "GOIBIBO".toList desc then "GOIBIBO"
  else if isSubstr "REBEL".toList desc then "REBEL MARKET"
  else if isSubstr "MONU".toList desc then "MONU"
  else if isSubstr "RAMESH".toList desc then "RAMESH K"
  else if isSubstr "BINDER".toList desc then "BINDER"
  else if isSubstr "ISHAN".toList desc then "ISHAN VOHRA"
  else if isSubstr "AMIT".toList desc then "AMIT KU"
  else if isSubstr "SHASHWAT".toList desc then "SHASHWAT"
  else if isSubstr "JATINDER".toList desc then "JATINDER"
  else if isSubstr "PUNIT".toList desc then "PUNIT PA"
  else if isSubstr "UNIQUE".toList desc then "UNIQUE S"
  else if isSubstr "GROWSY".toList desc then "GROWSY"
  else if isSubstr "BESTIN".toList desc then "BESTIN"
  else if isSubstr "SKY".toList desc then "M/S.SKY"
  else "OTHER"

/-- Every pattern tested by extract_merchant, in rule order. -/
def merchantPatterns : List (List Char) :=
  ["POONAM M".toList, "AGI READ".toList, "MOHIT S".toList, "JASVIN T".toList,
   "CHHAVI".toList, "GOOGLE".toList, "AARYAN".toList, "ZEPTO".toList,
   "SWIGGY".toList, "AMAZON".toList, "DOMINO".toList, "THAPAR".toList,
   "GROWW".toList, "MUTUAL F".toList, "AIRTEL".toList, "APPLE".toList,
   "NETFLIX".toList, "WRAP CHIP".toList, "HUNGERBOX".toList, "HUNGER BO X".toList,
   "BLINKIT".toList, "ZUDIO".toList, "MCDONALDS".toList, "MCDONALD".toList,
   "GOIBIBO".toList, "REBEL".toList, "MONU".toList, "RAMESH".toList,
   "BINDER".toList, "ISHAN".toList, "AMIT".toList, "SHASHWAT".toList,
   "JATINDER".toList, "PUNIT".toList, "UNIQUE".toList, "GROWSY".toList,
   "BESTIN".toList, "SKY".toList]

/-- Every label extract_merchant can return, the sentinel OTHER included. -/
def merchantLabels : List String :=
  ["POONAM M", "AGI READ", "MOHIT S", "JASVIN T", "CHHAVI", "GOOGLE", "AARYAN",
   "ZEPTO", "SWIGGY", "AMAZON", "DOMINOS", "THAPAR INSTITUTE", "GROWW/INVESTMENTS",
   "AIRTEL", "APPLE", "NETFLIX", "WRAP CHIP", "HUNGERBOX", "BLINKIT", "ZUDIO",
   "MCDONALDS", "GOIBIBO", "REBEL MARKET", "MONU", "RAMESH K", "BINDER",
   "ISHAN VOHRA", "AMIT KU", "SHASHWAT", "JATINDER", "PUNIT PA", "UNIQUE S",
   "GROWSY", "BESTIN", "M/S.SKY", "OTHER"]

/-- FinancialAuditor.categorize_transaction: income rules when
txn_type == credit, otherwise the expense rules.  The code passes the
already upper-cased description into extract_merchant. -/
def categorize_transaction (txn : Txn) : String :=
  let desc := upper txn.description.toList
  if txn.txn_type = "credit" then
    let merchant := extract_merchant (String.mk desc)
    if merchant = "POONAM M" || merchant = "MOHIT S" || merchant = "AGI READ" then
      "Income - Family"
    else if merchant = "JASVIN T" || merchant = "AARYAN" || merchant = "CHHAVI" then
      "Income - Friends/Peer Transfer"
    else if merchant = "GOOGLE" then "Income - Rewards"
    else if isSubstr "AMAZON".toList desc then "Income - Refund"
    else "Income - Other"
  else
    if isSubstr "THAPAR".toList desc then "Education"
    else if isSubstr "ZEPTO".toList desc || isSubstr "BLINKIT".toList desc then
      "Groceries"
    else if isSubstr "SWIGGY".toList desc || isSubstr "DOMINO".toList desc ||
        isSubstr "MCDONALDS".toList desc || isSubstr "HUNGERBOX".toList desc ||
        isSubstr "WRAP CHIP".toList desc then "Food & Dining"
    else if isSubstr "GROWW".toList desc || isSubstr "MUTUAL F".toList desc then
      "Investments"
    else if isSubstr "AMAZON".toList desc || isSubstr "ZUDIO".toList desc then
      "Shopping"
    else if isSubstr "AIRTEL".toList desc || isSubstr "NETFLIX".toList desc ||
        isSubstr "APPLE".toList desc then "Subscriptions & Utilities"
    else if isSubstr "GOIBIBO".toList desc then "Travel"
    else if isSubstr "MONU".toList desc || isSubstr "RAMESH".toList desc ||
        isSubstr "BINDER".toList desc || isSubstr "ISHAN".toList desc ||
        isSubstr "AMIT".toList desc || isSubstr "SHASHWAT".toList desc ||
        isSubstr "JATINDER".toList desc || isSubstr "PUNIT".toList desc then
      "Peer Transfers"
    else if isSubstr "REBEL".toList desc || isSubstr "UNIQUE".toList desc ||
        isSubstr "GROWSY".toList desc || isSubstr "BESTIN".toList desc ||
        isSubstr "SKY".toList desc then "Shopping - Local"
    else "Other"

/-- The five categories the credit branch of categorize_transaction can return. -/
def incomeCategories : List String :=
  ["Income - Family", "Income - Friends/Peer Transfer", "Income - Rewards",
   "Income - Refund", "Income - Other"]

/-- The ten categories the expense branch of categorize_transaction can return. -/
def expenseCategories : List String :=
  ["Education", "Groceries", "Food & Dining", "Investments", "Shopping",
   "Subscriptions & Utilities", "Travel", "Peer Transfers", "Shopping - Local",
   "Other"]

/-! ### Ledger verifier (audit_analyzer.py verify_balances, lines 176-205) -/

structure VerificationIssue where
  txn_id : String
  date : String
  expected : ℚ
  actual : ℚ
  difference : ℚ
deriving DecidableEq

/-- The hardcoded tolerance Decimal 0.01 of verify_balances. -/
def auditTolerance : ℚ := 1 / 100

/-- The body of the verify_balances loop from the second record on:
prev is the record preceding curr; an issue is appended when the
absolute mismatch exceeds the tolerance; prev then becomes curr
regardless of match. -/
def verifyAux (prev : Txn) : List Txn → List VerificationIssue
  | [] => []
  | curr :: rest =>
    let expected := prev.balance + curr.credit - curr.debit
    let actual := curr.balance
    (if auditTolerance < |expected - actual| then
      [⟨curr.txn_id, curr.value_date, expected, actual, actual - expected⟩]
    else []) ++ verifyAux curr rest

/-- FinancialAuditor.verify_balances: the first record only seeds the
opening balance (the i == 0 iteration just continues); every later
record is compared against its predecessor. -/
def verify_balances : List Txn → List VerificationIssue
  | [] => []
  | first :: rest => verifyAux first rest

/-! ### Dates (datetime values and strptime-style parsing) -/

structure Date where
  year : Nat
  month : Nat
  day : Nat
deriving DecidableEq

/-- Comparison of datetime values: lexicographic on year, month, day. -/
def Date.leb (a b : Date) : Bool :=
  if a.year = b.year then
    if a.month = b.month then decide (a.day ≤ b.day)
    else decide (a.month < b.month)
  else decide (a.year < b.year)

def Date.ltb (a b : Date) : Bool := !(Date.leb b a)

def isLeap (y : Nat) : Bool := (y % 4 == 0 && y % 100 != 0) || y % 400 == 0

def daysInMonth (y m : Nat) : Nat :=
  if m = 2 then (if isLeap y then 29 else 28)
  else if m = 4 ∨ m = 6 ∨ m = 9 ∨ m = 11 then 30
  else 31

def daysBeforeMonth (y m : Nat) : Nat :=
  ((List.range (m - 1)).map (fun i => daysInMonth y (i + 1))).sum

def leapsBefore (y : Nat) : Nat := (y - 1) / 4 - (y - 1) / 100 + (y - 1) / 400

/-- Proleptic Gregorian day number, as in Python date.toordinal; date
subtraction in the source is the difference of these ordinals. -/
def Date.toOrdinal (d : Date) : Nat :=
  (d.year - 1) * 365 + leapsBefore d.year + daysBeforeMonth d.year d.month + d.day

/-- Python min over datetime values: fold keeping the first minimum. -/
def minDateFold (d : Date) (l : List Date) : Date :=
  l.foldl (fun acc x => if Date.ltb x acc then x else acc) d

/-- Python max over datetime values: fold keeping the first maximum. -/
def maxDateFold (d : Date) (l : List Date) : Date :=
  l.foldl (fun acc x => if Date.ltb acc x then x else acc) d

/-- Python str.split on a single separator character. -/
def splitOnChar (sep : Char) : List Char → List (List Char)
  | [] => [[]]
  | c :: rest =>
    if c = sep then [] :: splitOnChar sep rest
    else
      match splitOnChar sep rest with
      | [] => [[c]]
      | h :: t => (c :: h) :: t

/-- Parse a nonempty all-digit string as a natural number, as int does
for the date fields it is applied to. -/
def parseNat? (s : List Char) : Option Nat :=
  if s.isEmpty then none
  else if s.all Char.isDigit then
    some (s.foldl (fun n c => n * 10 + (c.toNat - 48)) 0)
  else none

/-- Unsigned decimal text: digits with an optional fractional part. -/
def parseUnsigned? (body : List Char) : Option ℚ :=
  match splitOnChar '.' body with
  | [ip] => (parseNat? ip).map (fun n => (n : ℚ))
  | [ip, fp] =>
    match parseNat? ip, parseNat? fp with
    | some n, some f => some ((n : ℚ) + (f : ℚ) / 10 ^ fp.length)
    | _, _ => none
  | _ => none

/-- Decimal text parsing: optional sign, digits, optional fractional
part.  Models the Decimal constructor on the well-formed inputs the
pipeline feeds it; anything else is a parse failure. -/
def parseDecimal? (s : List Char) : Option ℚ :=
  match s with
  | '-' :: rest => (parseUnsigned? rest).map (fun q => -q)
  | '+' :: rest => parseUnsigned? rest
  | _ => parseUnsigned? s

/-- A calendar-valid day/month/year triple, as strptime enforces. -/
def validDate (day month year : Nat) : Option Date :=
  if 1 ≤ month ∧ month ≤ 12 ∧ 1 ≤ day ∧ day ≤ daysInMonth year month then
    some ⟨year, month, day⟩
  else none

/-- strptime with the day-first layout, three slash-separated fields. -/
def parseDateDMY (s : String) : Option Date :=
  match splitOnChar '/' s.toList with
  | [p1, p2, p3] =>
    match parseNat? p1, parseNat? p2, parseNat? p3 with
    | some d, some m, some y => validDate d m y
    | _, _, _ => none
  | _ => none

/-- strptime with the month-first layout. -/
def parseDateMDY (s : String) : Option Date :=
  match splitOnChar '/' s.toList with
  | [p1, p2, p3] =>
    match parseNat? p1, parseNat? p2, parseNat? p3 with
    | some m, some d, some y => validDate d m y
    | _, _, _ => none
  | _ => none

/-- analyze_transactions.py lines 20-23: try the day-first layout, fall
back to the month-first layout only when the first attempt raises. -/
def parseValueDate (s : String) : Option Date :=
  match parseDateDMY s with
  | some dt => some dt
  | none => parseDateMDY s

/-! ### Record normalizer (analyze_transactions.py lines 15-45) -/

structure PTxn where
  txn_id : String
  date : Date
  description : String
  debit : ℚ
  credit : ℚ
  balance : ℚ
  txn_type : String
deriving DecidableEq

instance : Inhabited PTxn := ⟨⟨"", ⟨1, 1, 1⟩, "", 0, 0, 0, ""⟩⟩

/-- The YYYY-MM grouping key derived from the value date. -/
def PTxn.monthKey (t : PTxn) : Nat × Nat := (t.date.year, t.date.month)

/-- A raw CSV row, fields still text; absent amount text is the empty
string. -/
structure RawRow where
  txn_id : String
  value_date : String
  description : String
  debit : String
  credit : String
  balance : String
  txn_type : String
deriving DecidableEq

/-- The body of the parsing loop: date (with fallback), then the
amounts; empty debit or credit text becomes exactly zero, while the
balance field has no empty guard and must parse. -/
def parseRow (r : RawRow) : Option PTxn :=
  match parseValueDate r.value_date with
  | none => none
  | some dt =>
    let pd := if r.debit = "" then some (0 : ℚ) else parseDecimal? r.debit.toList
    let pc := if r.credit = "" then some (0 : ℚ) else parseDecimal? r.credit.toList
    match pd, pc, parseDecimal? r.balance.toList with
    | some d, some c, some b => some ⟨r.txn_id, dt, r.description, d, c, b, r.txn_type⟩
    | _, _, _ => none

/-- The whole loop: parsed rows are appended in order; a failing row
only appends its identifier to the error report and the loop continues. -/
def parseAll (rows : List RawRow) : List PTxn × List String :=
  rows.foldl (fun acc r =>
    match parseRow r with
    | some t => (acc.1 ++ [t], acc.2)
    | none => (acc.1, acc.2 ++ [r.txn_id])) ([], [])

def ptxnLe (a b : PTxn) : Bool := Date.leb a.date b.date

/-- parsed_transactions.sort(key date): a stable sort by value date. -/
def sortTxns (l : List PTxn) : List PTxn := l.mergeSort ptxnLe

/-- parsed_transactions[0], raising on an empty list. -/
inductive AuditError where
  | indexError
  | valueError
  | emptyDatasetError
deriving DecidableEq

def firstTxnStage (l : List PTxn) : Except AuditError PTxn :=
  match l with
  | [] => .error .indexError
  | a :: _ => .ok a

/-! ### The audit pipeline loader (audit_analyzer.py load_data, lines 22-56) -/

/-- A raw CSV row as load_data reads it; fields the analyses never use
are omitted, absent amount text is the empty string. -/
structure AuditRawRow where
  txn_id : String
  value_date : String
  description : String
  debit : String
  credit : String
  balance : String
  txn_type : String
deriving DecidableEq

/-- Decimal(text) if text else Decimal(0): all three amount fields of
load_data carry this guard. -/
def audit_amount? (s : String) : Option ℚ :=
  if s = "" then some 0 else parseDecimal? s.toList

/-- One row of load_data: the value date is kept as raw text (load_data
never parses dates) and a Decimal() failure raises. -/
def audit_loadRow (r : AuditRawRow) : Option Txn :=
  match audit_amount? r.debit, audit_amount? r.credit, audit_amount? r.balance with
  | some d, some c, some b =>
    some ⟨r.txn_id, r.value_date, r.description, d, c, b, r.txn_type⟩
  | _, _, _ => none

/-- load_data itself: rows are appended to self.transactions in input
order and never sorted; there is no try/except, so the first row whose
amount text fails Decimal() aborts the whole load with nothing
produced. -/
def audit_load_data (rows : List AuditRawRow) : Option (List Txn) :=
  rows.mapM audit_loadRow

/-- Value-date order on loaded audit rows, under the day-first layout
the same class parses value_date with. -/
def txnDateLeb (a b : Txn) : Bool :=
  match parseDateDMY a.value_date, parseDateDMY b.value_date with
  | some da, some db => Date.leb da db
  | _, _ => true

/-! ### Monthly rollup (analyze_transactions.py lines 73-109) -/

structure MonthStat where
  opening : ℚ
  closing : ℚ
  total_credits : ℚ
  total_debits : ℚ
  net_change : ℚ
  growth_rate : ℚ
  count : Nat
deriving DecidableEq

/-- The records accumulated for one YYYY-MM key, in input order. -/
def monthGroup (txns : List PTxn) (m : Nat × Nat) : List PTxn :=
  txns.filter (fun t => t.monthKey = m)

/-- Per-month data: the group is re-sorted by date (lines 88-89), its
first record implies the opening balance, its last record gives the
closing balance; the growth rate division is guarded on a zero opening. -/
def monthStats (txns : List PTxn) (m : Nat × Nat) : Option MonthStat :=
  let g0 := monthGroup txns m
  let g := g0.mergeSort ptxnLe
  match g.head?, g.getLast? with
  | some first, some last =>
    let opening := first.balance + first.debit - first.credit
    let closing := last.balance
    let net_change := closing - opening
    let growth_rate := if opening ≠ 0 then net_change / opening * 100 else 0
    some ⟨opening, closing, (g0.map (·.credit)).sum, (g0.map (·.debit)).sum,
      net_change, growth_rate, g0.length⟩
  | _, _ => none

/-! ### Balance verification loop of analyze_transactions.py (lines 248-262) -/

structure BalanceAnomaly where
  date : Date
  expected : ℚ
  actual : ℚ
  diff : ℚ
deriving DecidableEq

/-- The hardcoded tolerance Decimal 0.02 of the second script. -/
def analyzeTolerance : ℚ := 1 / 50

def balanceAux (prev : PTxn) : List PTxn → List BalanceAnomaly
  | [] => []
  | curr :: rest =>
    let expected := prev.balance - curr.debit + curr.credit
    let actual := curr.balance
    (if analyzeTolerance < |expected - actual| then
      [⟨curr.date, expected, actual, actual - expected⟩]
    else []) ++ balanceAux curr rest

def balance_anomalies : List PTxn → List BalanceAnomaly
  | [] => []
  | first :: rest => balanceAux first rest

/-! ### Summary statistics (audit_analyzer.py lines 255-284) -/

structure SummaryStats where
  total_days : Nat
  opening_balance : ℚ
  closing_balance : ℚ
  total_credits : ℚ
  total_debits : ℚ
  net_change : ℚ
  total_transactions : Nat
  total_credit_txns : Nat
  total_debit_txns : Nat
  avg_daily_credit : ℚ
  avg_daily_debit : ℚ
  avg_credit_amount : ℚ
  avg_debit_amount : ℚ
deriving DecidableEq

/-- FinancialAuditor.generate_summary_statistics.  On an empty batch the
very first step, transactions[0], raises an index error; there is no
EmptyDatasetError path anywhere in the code.  A value date that fails
the day-first strptime raises a value error. -/
def generate_summary_statistics (txns : List Txn) : Except AuditError SummaryStats :=
  match txns with
  | [] => .error .indexError
  | first :: rest =>
    let allTxns := first :: rest
    let creds := creditsOf (first :: rest)
    let debs := debitsOf (first :: rest)
    let total_credits := (creds.map (·.credit)).sum
    let total_debits := (debs.map (·.debit)).sum
    let opening := first.balance - first.credit + first.debit
    let closing := ((first :: rest).getLast (List.cons_ne_nil first rest)).balance
    match (first :: rest).mapM (fun t => parseDateDMY t.value_date) with
    | none => .error .valueError
    | some [] => .error .valueError
    | some (d0 :: drest) =>
      let mn := minDateFold d0 drest
      let mx := maxDateFold d0 drest
      let days := mx.toOrdinal - mn.toOrdinal + 1
      .ok ⟨days, opening, closing, total_credits, total_debits, closing - opening,
        allTxns.length, creds.length, debs.length,
        total_credits / (days : ℚ), total_debits / (days : ℚ),
        (if creds.isEmpty then 0 else total_credits / (creds.length : ℚ)),
        (if debs.isEmpty then 0 else total_debits / (debs.length : ℚ))⟩

/-! ### Anomaly detection (audit_analyzer.py lines 286-327) -/

/-- The duplicate-amount key: the debit for a debit-typed row, the
credit for any other row. -/
def effAmount (t : Txn) : ℚ := if t.txn_type = "debit" then t.debit else t.credit

/-- Mean debit amount over self.debits, zero when there are none. -/
def avg_debit (txns : List Txn) : ℚ :=
  if (debitsOf txns).isEmpty then 0
  else ((debitsOf txns).map (·.debit)).sum / ((debitsOf txns).length : ℚ)

inductive Anomaly where
  | large (date : String) (amount : ℚ) (merchant : String) (description : String)
  | dup (date : String) (amount : ℚ) (count : Nat) (transactions : List String)
deriving DecidableEq

/-- The large-transaction pass: every row of self.debits whose debit is
strictly above three times the mean debit. -/
def largeAnomalies (txns : List Txn) : List Anomaly :=
  (debitsOf txns).filterMap (fun t =>
    if avg_debit txns * 3 < t.debit then
      some (.large t.value_date t.debit (extract_merchant t.description)
        (takeStr t.description 100))
    else none)

/-- One entry of the date_amounts table: rows with a zero key amount are
not recorded. -/
def entryOf (t : Txn) : Option (String × ℚ × String) :=
  let amount := effAmount t
  if 0 < amount then some (t.value_date, amount, takeStr t.description 50) else none

def dupEntries (txns : List Txn) : List (String × ℚ × String) :=
  txns.filterMap entryOf

/-- Keys of a Python dict built by appending: first-occurrence order,
no duplicates. -/
def firstKeysAux {α : Type} [DecidableEq α] (seen : List α) : List α → List α
  | [] => []
  | a :: l => if a ∈ seen then firstKeysAux seen l else a :: firstKeysAux (a :: seen) l

def firstKeys {α : Type} [DecidableEq α] (l : List α) : List α := firstKeysAux [] l

/-- The inner loop over amount_counts for one date: a cluster of two or
more identical amounts emits one duplicate anomaly carrying the count
and the truncated descriptions. -/
def dupAnomaliesForDate (date : String) (amounts : List (ℚ × String)) : List Anomaly :=
  (firstKeys (amounts.map (·.1))).filterMap (fun amt =>
    let descs := (amounts.filter (fun e => e.1 = amt)).map (·.2)
    if 1 < descs.length then some (.dup date amt descs.length descs) else none)

/-- The outer loop over date_amounts. -/
def duplicateAnomalies (txns : List Txn) : List Anomaly :=
  let entries := dupEntries txns
  (firstKeys (entries.map (·.1))).flatMap (fun date =>
    dupAnomaliesForDate date ((entries.filter (fun e => e.1 = date)).map (·.2)))

/-- FinancialAuditor.detect_anomalies: the large-transaction pass runs
first, then the duplicate-amount pass. -/
def detect_anomalies (txns : List Txn) : List Anomaly :=
  largeAnomalies txns ++ duplicateAnomalies txns

/-- The transactions forming one duplicate cluster, read off directly
from the batch: same value date, same positive key amount. -/
def cluster (txns : List Txn) (d : String) (a : ℚ) : List String :=
  (txns.filter (fun t => t.value_date = d ∧ effAmount t = a ∧ 0 < effAmount t)).map
    (fun t => takeStr t.description 50)

/-! ### Pattern analysis (audit_analyzer.py lines 207-253) -/

structure Patterns where
  day_of_month : Nat → Nat
  category_totals : String → ℚ
  category_counts : String → Nat
  merchant_totals : String → ℚ
  merchant_counts : String → Nat
  size_small : Nat
  size_medium : Nat
  size_large : Nat
  size_very_large : Nat

def emptyPatterns : Patterns :=
  ⟨fun _ => 0, fun _ => 0, fun _ => 0, fun _ => 0, fun _ => 0, 0, 0, 0, 0⟩

/-- Line 221-222 of audit_analyzer.py: the histogram key is
int(value_date.split(slash)[1]), the SECOND slash-separated component
of the raw day-first date text. -/
def dayKey? (t : Txn) : Option Nat :=
  match splitOnChar '/' t.value_date.toList with
  | _ :: p1 :: _ => parseNat? p1
  | _ => none

inductive SizeBucket where
  | small
  | medium
  | large
  | very_large
deriving DecidableEq

/-- The four-way size classification of a debit amount. -/
def sizeBucket (amount : ℚ) : SizeBucket :=
  if amount < 500 then .small
  else if amount < 5000 then .medium
  else if amount < 50000 then .large
  else .very_large

/-- One iteration of the analyze_patterns loop.  The day histogram is
bumped for every transaction; the category, merchant and size tallies
only for debit-typed ones. -/
def patternsStep (p : Patterns) (t : Txn) : Option Patterns :=
  match dayKey? t with
  | none => none
  | some day =>
    let p1 : Patterns := { p with
      day_of_month := fun k => if k = day then p.day_of_month k + 1 else p.day_of_month k }
    if t.txn_type = "debit" then
      let category := categorize_transaction t
      let merchant := extract_merchant t.description
      let p2 : Patterns := { p1 with
        category_totals := fun k =>
          if k = category then p1.category_totals k + t.debit else p1.category_totals k,
        category_counts := fun k =>
          if k = category then p1.category_counts k + 1 else p1.category_counts k,
        merchant_totals := fun k =>
          if k = merchant then p1.merchant_totals k + t.debit else p1.merchant_totals k,
        merchant_counts := fun k =>
          if k = merchant then p1.merchant_counts k + 1 else p1.merchant_counts k }
      some (if t.debit < 500 then { p2 with size_small := p2.size_small + 1 }
        else if t.debit < 5000 then { p2 with size_medium := p2.size_medium + 1 }
        else if t.debit < 50000 then { p2 with size_large := p2.size_large + 1 }
        else { p2 with size_very_large := p2.size_very_large + 1 })
    else some p1

/-- FinancialAuditor.analyze_patterns as a left fold over the batch. -/
def analyze_patterns (txns : List Txn) : Option Patterns :=
  txns.foldlM patternsStep emptyPatterns

/-- The size counter a bucket selects in the patterns output. -/
def sizeCount (p : Patterns) : SizeBucket → Nat
  | .small => p.size_small
  | .medium => p.size_medium
  | .large => p.size_large
  | .very_large => p.size_very_large

/-! ### Concrete batches used as witnesses -/

def exOpen : Txn := ⟨"T1", "01/01/2026", "OPENING", 0, 0, 1000, "credit"⟩

def exNext : Txn := ⟨"T2", "02/01/2026", "UPI/POONAM M/IN", 100, 300, 1200, "credit"⟩

def exTxns : List Txn := [exOpen, exNext]

def dupA : Txn := ⟨"D1", "10/01/2026", "SHOP A", 1500, 0, 10000, "debit"⟩

def dupB : Txn := ⟨"D2", "10/01/2026", "SHOP B", 1500, 0, 8500, "debit"⟩

def dupC : Txn := ⟨"D3", "10/01/2026", "SHOP C", 1500, 0, 7000, "debit"⟩

def dupTxns : List Txn := [dupA, dupB, dupC]

def c9txn : Txn := ⟨"T9", "05/01/2026", "SWIGGY ORDER", 100, 0, 900, "debit"⟩

def c10txn : Txn := ⟨"TX", "01/01/2026", "GOOGLE REWARD", 0, 500, 1500, "refund"⟩

def pt1 : PTxn := ⟨"P1", ⟨2026, 1, 1⟩, "A", 0, 500, 1500, "credit"⟩

def pt2 : PTxn := ⟨"P2", ⟨2026, 1, 10⟩, "B", 200, 0, 1300, "debit"⟩

def ptxns : List PTxn := [pt1, pt2]

def rowGood : RawRow := ⟨"R1", "05/01/2026", "SWIGGY", "450", "", "1000", "debit"⟩

def rowBad : RawRow := ⟨"R2", "99/99/2026", "X", "10", "", "990", "debit"⟩

def rowGood2 : RawRow := ⟨"R3", "01/25/2026", "Y", "", "20", "1010", "credit"⟩

def aRow1 : AuditRawRow := ⟨"A1", "02/01/2026", "SHOP X", "100", "", "900", "debit"⟩

def aRow2 : AuditRawRow := ⟨"A2", "01/01/2026", "SHOP Y", "", "50", "950", "credit"⟩

def aRowBad : AuditRawRow := ⟨"A3", "03/01/2026", "SHOP Z", "12x", "", "800", "debit"⟩

def aTxn1 : Txn := ⟨"A1", "02/01/2026", "SHOP X", 100, 0, 900, "debit"⟩

def aTxn2 : Txn := ⟨"A2", "01/01/2026", "SHOP Y", 0, 50, 950, "credit"⟩

def c4a : Txn := ⟨"W1", "01/01/2026", "swiggy order 12", 250, 0, 500, "debit"⟩

def c4b : Txn := ⟨"W2", "02/01/2026", "SWIGGY ORDER 12", 250, 0, 250, "debit"⟩

/-! ## Theorems -/

/-- The verifier loop pairs every record from the second one on with its
predecessor, emits an issue exactly when the mismatch exceeds the
tolerance, and carries difference = actual - expected. -/
theorem verifyAux_eq (prev : Txn) (l : List Txn) :
    verifyAux prev l = ((prev :: l).zip l).filterMap (fun p =>
      if auditTolerance < |p.2.balance - (p.1.balance + p.2.credit - p.2.debit)| then
        some ⟨p.2.txn_id, p.2.value_date, p.1.balance + p.2.credit - p.2.debit, p.2.balance,
          p.2.balance - (p.1.balance + p.2.credit - p.2.debit)⟩
      else none) := by
  induction l generalizing prev with
  | nil => rfl
  | cons c rest ih =>
    by_cases h : auditTolerance < |(prev.balance + c.credit - c.debit) - c.balance|
    · have h2 : auditTolerance < |c.balance - (prev.balance + c.credit - c.debit)| := by
        rwa [abs_sub_comm]
      simp [verifyAux, List.zip_cons_cons, List.filterMap_cons, h, h2, ih]
    · have h2 : ¬ auditTolerance < |c.balance - (prev.balance + c.credit - c.debit)| := by
        rwa [abs_sub_comm]
      simp [verifyAux, List.zip_cons_cons, List.filterMap_cons, h, h2, ih]

/-- Issues plus matches over the verifier loop account for every checked
record. -/
theorem verifyAux_length (prev : Txn) (l : List Txn) :
    (verifyAux prev l).length
      + ((prev :: l).zip l).countP (fun p =>
          |p.2.balance - (p.1.balance + p.2.credit - p.2.debit)| ≤ auditTolerance)
      = l.length := by
  induction l generalizing prev with
  | nil => rfl
  | cons c rest ih =>
    have hrec := ih c
    by_cases h2 : auditTolerance < |c.balance - (prev.balance + c.credit - c.debit)|
    · have h : auditTolerance < |(prev.balance + c.credit - c.debit) - c.balance| := by
        rwa [abs_sub_comm]
      have h3 : ¬ |c.balance - (prev.balance + c.credit - c.debit)| ≤ auditTolerance :=
        not_le.mpr h2
      simp only [verifyAux, List.zip_cons_cons, List.countP_cons, if_pos h,
        List.length_append, List.length_cons, List.length_nil, decide_eq_true_eq,
        if_neg h3]
      omega
    · have h : ¬ auditTolerance < |(prev.balance + c.credit - c.debit) - c.balance| := by
        rwa [abs_sub_comm]
      have h3 : |c.balance - (prev.balance + c.credit - c.debit)| ≤ auditTolerance :=
        not_lt.mp h2
      simp only [verifyAux, List.zip_cons_cons, List.countP_cons, if_neg h,
        List.length_append, List.length_cons, List.length_nil, decide_eq_true_eq,
        if_pos h3]
      omega

/-- The analyze_transactions balance loop satisfies the same pairing
characterization at its own tolerance. -/
theorem balanceAux_eq (prev : PTxn) (l : List PTxn) :
    balanceAux prev l = ((prev :: l).zip l).filterMap (fun p =>
      if analyzeTolerance < |p.2.balance - (p.1.balance - p.2.debit + p.2.credit)| then
        some ⟨p.2.date, p.1.balance - p.2.debit + p.2.credit, p.2.balance,
          p.2.balance - (p.1.balance - p.2.debit + p.2.credit)⟩
      else none) := by
  induction l generalizing prev with
  | nil => rfl
  | cons c rest ih =>
    by_cases h : analyzeTolerance < |(prev.balance - c.debit + c.credit) - c.balance|
    · have h2 : analyzeTolerance < |c.balance - (prev.balance - c.debit + c.credit)| := by
        rwa [abs_sub_comm]
      simp [balanceAux, List.zip_cons_cons, List.filterMap_cons, h, h2, ih]
    · have h2 : ¬ analyzeTolerance < |c.balance - (prev.balance - c.debit + c.credit)| := by
        rwa [abs_sub_comm]
      simp [balanceAux, List.zip_cons_cons, List.filterMap_cons, h, h2, ih]

/-- Anomalies plus matches over the second balance loop account for
every checked record. -/
theorem balanceAux_length (prev : PTxn) (l : List PTxn) :
    (balanceAux prev l).length
      + ((prev :: l).zip l).countP (fun p =>
          |p.2.balance - (p.1.balance - p.2.debit + p.2.credit)| ≤ analyzeTolerance)
      = l.length := by
  induction l generalizing prev with
  | nil => rfl
  | cons c rest ih =>
    have hrec := ih c
    by_cases h2 : analyzeTolerance < |c.balance - (prev.balance - c.debit + c.credit)|
    · have h : analyzeTolerance < |(prev.balance - c.debit + c.credit) - c.balance| := by
        rwa [abs_sub_comm]
      have h3 : ¬ |c.balance - (prev.balance - c.debit + c.credit)| ≤ analyzeTolerance :=
        not_le.mpr h2
      simp only [balanceAux, List.zip_cons_cons, List.countP_cons, if_pos h,
        List.length_append, List.length_cons, List.length_nil, decide_eq_true_eq,
        if_neg h3]
      omega
    · have h : ¬ analyzeTolerance < |(prev.balance - c.debit + c.credit) - c.balance| := by
        rwa [abs_sub_comm]
      have h3 : |c.balance - (prev.balance - c.debit + c.credit)| ≤ analyzeTolerance :=
        not_lt.mp h2
      simp only [balanceAux, List.zip_cons_cons, List.countP_cons, if_neg h,
        List.length_append, List.length_cons, List.length_nil, decide_eq_true_eq,
        if_pos h3]
      omega

/-- C1: for a batch of n >= 1 records, verify_balances checks every
record after the first exactly once against its predecessor and never
checks the first; an issue with difference = actual - expected is
emitted for index i exactly when the absolute gap between balance_i and
previousBalance + credit_i - debit_i exceeds the tolerance, with the
previous balance taken from the preceding record regardless of match;
hence issues plus matches equal n - 1.  The balance loop of the second
script satisfies the same property at its tolerance. -/
theorem c1_ledger_verification (txns : List Txn) (h : 1 ≤ txns.length) :
    (verify_balances txns = (txns.zip txns.tail).filterMap (fun p =>
        if auditTolerance < |p.2.balance - (p.1.balance + p.2.credit - p.2.debit)| then
          some ⟨p.2.txn_id, p.2.value_date, p.1.balance + p.2.credit - p.2.debit, p.2.balance,
            p.2.balance - (p.1.balance + p.2.credit - p.2.debit)⟩
        else none))
    ∧ (verify_balances txns).length
        + (txns.zip txns.tail).countP (fun p =>
            |p.2.balance - (p.1.balance + p.2.credit - p.2.debit)| ≤ auditTolerance)
        = txns.length - 1
    ∧ (∀ (pl : List PTxn), 1 ≤ pl.length →
        (balance_anomalies pl = (pl.zip pl.tail).filterMap (fun p =>
            if analyzeTolerance < |p.2.balance - (p.1.balance - p.2.debit + p.2.credit)| then
              some ⟨p.2.date, p.1.balance - p.2.debit + p.2.credit, p.2.balance,
                p.2.balance - (p.1.balance - p.2.debit + p.2.credit)⟩
            else none)
          ∧ (balance_anomalies pl).length
              + (pl.zip pl.tail).countP (fun p =>
                  |p.2.balance - (p.1.balance - p.2.debit + p.2.credit)| ≤ analyzeTolerance)
              = pl.length - 1)) := by
  match txns, h with
  | first :: rest, _ =>
    refine ⟨?_, ?_, ?_⟩
    · simpa using verifyAux_eq first rest
    · simpa using verifyAux_length first rest
    · intro pl hp
      match pl, hp with
      | pf :: pr, _ =>
        refine ⟨?_, ?_⟩
        · simpa using balanceAux_eq pf pr
        · simpa using balanceAux_length pf pr

/-- C1 witness: the spec example, balances 1000 then 1200 with credit
300 and debit 100 on the second record, yields no issue, and the count
identity holds on that batch. -/
theorem c1_ledger_verification_witness :
    verify_balances exTxns = [] ∧ balance_anomalies ptxns = [] := by
  have h := c1_ledger_verification exTxns (by decide)
  have he : verify_balances exTxns = [] := by
    rw [h.1]
    norm_num [exTxns, exOpen, exNext, auditTolerance, List.zip_cons_cons,
      List.zip_nil_right, List.filterMap_cons]
  have hb : balance_anomalies ptxns = [] := by
    rw [(h.2.2 ptxns (by decide)).1]
    norm_num [ptxns, pt1, pt2, analyzeTolerance, List.zip_cons_cons,
      List.zip_nil_right, List.filterMap_cons]
  exact ⟨he, hb⟩

/-- An if/elif chain lands in a set when both arms do. -/
theorem ite_mem {c : Prop} [Decidable c] {a b : String} {S : List String}
    (ha : a ∈ S) (hb : b ∈ S) : (if c then a else b) ∈ S := by
  split
  · exact ha
  · exact hb

/-- An if/elif chain avoids a set when both arms do. -/
theorem ite_not_mem {c : Prop} [Decidable c] {a b : String} {S : List String}
    (ha : a ∉ S) (hb : b ∉ S) : (if c then a else b) ∉ S := by
  split
  · exact ha
  · exact hb

/-- Peeling one branch of an if/elif chain in a disjunction goal. -/
theorem ite_or_helper {c Q : Prop} [Decidable c] {a b r : String}
    (h1 : c → a = r ∨ Q) (h2 : b = r ∨ Q) : (if c then a else b) = r ∨ Q := by
  split
  · exact h1 (by assumption)
  · exact h2

/-- extract_merchant only ever returns one of the closed label set. -/
theorem extract_merchant_mem (d : String) : extract_merchant d ∈ merchantLabels := by
  unfold extract_merchant
  repeat' refine ite_mem (by decide) ?_
  decide

/-- extract_merchant returns OTHER unless one of its patterns occurs in
the upper-cased description. -/
theorem extract_merchant_other_or (d : String) :
    extract_merchant d = "OTHER"
      ∨ ∃ p ∈ merchantPatterns, isSubstr p (upper d.toList) = true := by
  unfold extract_merchant
  repeat'
    first
    | refine ite_or_helper (fun hc => Or.inr ⟨_, by decide, hc⟩) ?_
    | refine ite_or_helper (fun hc => ?_) ?_
      case _ =>
        rcases Bool.or_eq_true_iff.mp hc with h | h
        · exact Or.inr ⟨_, by decide, h⟩
        · exact Or.inr ⟨_, by decide, h⟩
  exact Or.inl rfl

/-- extract_merchant depends only on the upper-cased description. -/
theorem extract_merchant_congr (d1 d2 : String)
    (h : upper d1.toList = upper d2.toList) :
    extract_merchant d1 = extract_merchant d2 := by
  unfold extract_merchant
  rw [h]

/-- categorize_transaction only ever returns an income or expense
category. -/
theorem categorize_transaction_mem (t : Txn) :
    categorize_transaction t ∈ incomeCategories ++ expenseCategories := by
  unfold categorize_transaction
  by_cases h : t.txn_type = "credit"
  · rw [if_pos h]
    repeat' refine ite_mem (by decide) ?_
    decide
  · rw [if_neg h]
    repeat' refine ite_mem (by decide) ?_
    decide

/-- The credit branch always produces an income category; the expense
branch never does. -/
theorem categorize_transaction_income_iff (t : Txn) :
    categorize_transaction t ∈ incomeCategories ↔ t.txn_type = "credit" := by
  by_cases h : t.txn_type = "credit"
  · refine ⟨fun _ => h, fun _ => ?_⟩
    unfold categorize_transaction
    rw [if_pos h]
    repeat' refine ite_mem (by decide) ?_
    decide
  · refine ⟨fun hmem => ?_, fun hc => absurd hc h⟩
    exfalso
    refine absurd hmem ?_
    unfold categorize_transaction
    rw [if_neg h]
    repeat' refine ite_not_mem (by decide) ?_
    decide

/-- categorize_transaction depends only on the txn_type field and the
upper-cased description. -/
theorem categorize_transaction_congr (t1 t2 : Txn) (h1 : t1.txn_type = t2.txn_type)
    (h2 : upper t1.description.toList = upper t2.description.toList) :
    categorize_transaction t1 = categorize_transaction t2 := by
  unfold categorize_transaction
  rw [h1, h2]

/-- C4: classification is a pure function (classifying twice gives the
identical merchant and category pair), it is total (the merchant is
always one of the closed label set, OTHER when no pattern matches, and
the category is always one of the income or expense categories), and it
is case-insensitive (descriptions equal after upper-casing classify
identically, for the merchant and, at equal txn_type, for the
category). -/
theorem c4_classifier_deterministic_total_case_insensitive :
    (∀ t : Txn, (extract_merchant t.description, categorize_transaction t)
        = (extract_merchant t.description, categorize_transaction t))
    ∧ (∀ d : String, extract_merchant d ∈ merchantLabels)
    ∧ (∀ d : String, (∀ p ∈ merchantPatterns, isSubstr p (upper d.toList) = false) →
        extract_merchant d = "OTHER")
    ∧ (∀ t : Txn, categorize_transaction t ∈ incomeCategories ++ expenseCategories)
    ∧ (∀ d1 d2 : String, upper d1.toList = upper d2.toList →
        extract_merchant d1 = extract_merchant d2)
    ∧ (∀ t1 t2 : Txn, t1.txn_type = t2.txn_type →
        upper t1.description.toList = upper t2.description.toList →
        categorize_transaction t1 = categorize_transaction t2) := by
  refine ⟨fun t => rfl, extract_merchant_mem, ?_, categorize_transaction_mem,
    extract_merchant_congr, categorize_transaction_congr⟩
  intro d h
  rcases extract_merchant_other_or d with he | ⟨p, hp, hit⟩
  · exact he
  · rw [h p hp] at hit
    exact absurd hit (by decide)

/-- C4 witness: concrete applications; casing does not affect the
merchant nor the category, and the spec example description maps into
the merchant label set. -/
theorem c4_classifier_witness :
    extract_merchant "Zepto Mart" = extract_merchant "ZEPTO MART"
    ∧ categorize_transaction c4a = categorize_transaction c4b
    ∧ extract_merchant "UPI/ZEPTO MART/1234" ∈ merchantLabels := by
  have h := c4_classifier_deterministic_total_case_insensitive
  refine ⟨h.2.2.2.2.1 "Zepto Mart" "ZEPTO MART" (by decide),
    h.2.2.2.2.2 c4a c4b (by decide) (by decide),
    h.2.1 "UPI/ZEPTO MART/1234"⟩

/-- C10: the assigned category is an income category exactly when the
txn_type field is the string credit; any other txn_type value goes
through the expense rules and the row is counted among the debits by
load_data; the category depends only on the txn_type and description
fields, never on the amounts. -/
theorem c10_category_driven_by_type (txn : Txn) (txns : List Txn) :
    (categorize_transaction txn ∈ incomeCategories ↔ txn.txn_type = "credit")
    ∧ (txn ∈ debitsOf txns ↔ txn ∈ txns ∧ ¬ txn.txn_type = "credit")
    ∧ (∀ t2 : Txn, txn.txn_type = t2.txn_type → txn.description = t2.description →
        categorize_transaction txn = categorize_transaction t2) := by
  refine ⟨categorize_transaction_income_iff txn, ?_, ?_⟩
  · simp [debitsOf, List.mem_filter]
  · intro t2 h1 h2
    exact categorize_transaction_congr txn t2 h1 (by rw [h2])

/-- C10 witness: a row with unrecognized txn_type refund and a nonzero
credit amount is still classified by the expense rules and counted
among the debits. -/
theorem c10_category_driven_by_type_witness :
    categorize_transaction c10txn ∉ incomeCategories
    ∧ c10txn ∈ debitsOf [c10txn]
    ∧ categorize_transaction c10txn = categorize_transaction c10txn := by
  have h := c10_category_driven_by_type c10txn [c10txn]
  refine ⟨fun hmem => absurd (h.1.mp hmem) (by decide), ?_, h.2.2 c10txn rfl rfl⟩
  exact h.2.1.mpr ⟨List.mem_singleton.mpr rfl, by decide⟩

/-- Date.leb unfolded to its arithmetic meaning. -/
theorem Date.leb_iff (a b : Date) :
    Date.leb a b = true ↔
      (a.year < b.year ∨ (a.year = b.year ∧ (a.month < b.month
        ∨ (a.month = b.month ∧ a.day ≤ b.day)))) := by
  unfold Date.leb
  split_ifs <;> simp_all

theorem ptxnLe_trans (a b c : PTxn) (h1 : ptxnLe a b = true) (h2 : ptxnLe b c = true) :
    ptxnLe a c = true := by
  unfold ptxnLe at *
  rw [Date.leb_iff] at *
  omega

theorem ptxnLe_total (a b : PTxn) : (ptxnLe a b || ptxnLe b a) = true := by
  unfold ptxnLe
  rw [Bool.or_eq_true, Date.leb_iff, Date.leb_iff]
  omega

/-- Records sharing one date compare as less-or-equal in either order. -/
theorem ptxnLe_of_eq_date (a b : PTxn) (d : Date) (ha : a.date = d) (hb : b.date = d) :
    ptxnLe a b = true := by
  unfold ptxnLe
  rw [ha, hb, Date.leb_iff]
  omega

/-- A row load_data accepts keeps its identifier and value date. -/
theorem audit_loadRow_fields (r : AuditRawRow) (t : Txn)
    (h : audit_loadRow r = some t) :
    t.txn_id = r.txn_id ∧ t.value_date = r.value_date := by
  unfold audit_loadRow at h
  split at h
  <;> try exact Option.noConfusion h
  have ht := (Option.some.inj h).symm
  subst ht
  exact ⟨rfl, rfl⟩

/-- When load_data succeeds it hands the rows downstream in exactly the
input order: identifiers and value dates positionally unchanged, no
sorting anywhere. -/
theorem audit_load_fields (rows : List AuditRawRow) (out : List Txn)
    (h : audit_load_data rows = some out) :
    out.map (fun t => (t.txn_id, t.value_date))
      = rows.map (fun r => (r.txn_id, r.value_date)) := by
  induction rows generalizing out with
  | nil =>
    unfold audit_load_data at h
    rw [List.mapM_nil] at h
    have := (Option.some.inj h).symm
    subst this
    rfl
  | cons r rest ih =>
    unfold audit_load_data at h
    rw [List.mapM_cons] at h
    cases hr : audit_loadRow r with
    | none =>
      rw [hr] at h
      exact Option.noConfusion h
    | some t =>
      rw [hr] at h
      cases hm : rest.mapM audit_loadRow with
      | none =>
        rw [hm] at h
        exact Option.noConfusion h
      | some ts =>
        rw [hm] at h
        simp only [Option.bind_eq_bind, Option.some_bind, Option.pure_def] at h
        have hout := (Option.some.inj h).symm
        subst hout
        have hfields := audit_loadRow_fields r t hr
        have hrest : audit_load_data rest = some ts := hm
        rw [List.map_cons, List.map_cons, ih ts hrest, hfields.1, hfields.2]

/-- load_data aborts, producing nothing at all, exactly when some row
has amount text Decimal() rejects. -/
theorem audit_load_none_iff (rows : List AuditRawRow) :
    audit_load_data rows = none ↔ ∃ r ∈ rows, audit_loadRow r = none := by
  induction rows with
  | nil =>
    unfold audit_load_data
    rw [List.mapM_nil]
    simp
  | cons r rest ih =>
    unfold audit_load_data
    rw [List.mapM_cons]
    cases hr : audit_loadRow r with
    | none =>
      constructor
      · intro _
        exact ⟨r, List.mem_cons_self r rest, hr⟩
      · intro _
        simp [hr]
    | some t =>
      cases hm : rest.mapM audit_loadRow with
      | none =>
        constructor
        · intro _
          obtain ⟨u, hu, hn⟩ := ih.mp hm
          exact ⟨u, List.mem_cons_of_mem r hu, hn⟩
        · intro _
          simp [hr, hm]
      | some ts =>
        constructor
        · intro hcontra
          simp [hr, hm] at hcontra
        · rintro ⟨u, hmem, hn⟩
          rcases List.mem_cons.mp hmem with rfl | hmem2
          · rw [hr] at hn
            exact Option.noConfusion hn
          · have hrn : rest.mapM audit_loadRow = none := ih.mpr ⟨u, hmem2, hn⟩
            rw [hm] at hrn
            exact Option.noConfusion hrn

/-- C6 counterexample: load_data of the audit pipeline performs no
sort; loading a batch whose dates arrive in descending order hands the
records to every downstream stage in that same descending order, so the
sequence is not sorted by value date ascending. -/
theorem c6_audit_not_sorted_counterexample :
    audit_load_data [aRow1, aRow2] = some [aTxn1, aTxn2]
    ∧ parseDateDMY aTxn1.value_date = some ⟨2026, 1, 2⟩
    ∧ parseDateDMY aTxn2.value_date = some ⟨2026, 1, 1⟩
    ∧ txnDateLeb aTxn1 aTxn2 = false
    ∧ ¬ ([aTxn1, aTxn2] : List Txn).Pairwise (fun a b => txnDateLeb a b = true) := by
  refine ⟨by decide, by decide, by decide, by decide, by decide⟩

/-- The sorting half of the normalizer contract: sorted, a permutation,
and stable on equal dates. -/
theorem c6_sort_core (l : List PTxn) :
    (sortTxns l).Pairwise (fun a b => ptxnLe a b = true)
    ∧ (sortTxns l).Perm l
    ∧ ∀ d : Date, (sortTxns l).filter (fun t => t.date = d)
        = l.filter (fun t => t.date = d) := by
  refine ⟨List.sorted_mergeSort ptxnLe_trans ptxnLe_total l, List.mergeSort_perm l ptxnLe, ?_⟩
  intro d
  have hpw : (l.filter (fun t => decide (t.date = d))).Pairwise (fun a b => ptxnLe a b = true) := by
    refine List.pairwise_of_forall_mem_list ?_
    intro a ha b hb
    rw [List.mem_filter] at ha hb
    exact ptxnLe_of_eq_date a b d (by simpa using ha.2) (by simpa using hb.2)
  have hsub : (l.filter (fun t => decide (t.date = d))).Sublist (sortTxns l) :=
    List.sublist_mergeSort ptxnLe_trans ptxnLe_total hpw (List.filter_sublist l)
  have heq : (l.filter (fun t => decide (t.date = d))).filter (fun t => decide (t.date = d))
      = l.filter (fun t => decide (t.date = d)) := by
    rw [List.filter_eq_self]
    intro a ha
    exact (List.mem_filter.mp ha).2
  have hsub2 : (l.filter (fun t => decide (t.date = d))).Sublist
      ((sortTxns l).filter (fun t => decide (t.date = d))) := by
    conv_lhs => rw [← heq]
    exact List.Sublist.filter _ hsub
  have hlen : ((sortTxns l).filter (fun t => decide (t.date = d))).length
      = (l.filter (fun t => decide (t.date = d))).length := by
    rw [← List.countP_eq_length_filter, ← List.countP_eq_length_filter]
    exact List.Perm.countP_eq _ (List.mergeSort_perm l ptxnLe)
  exact (List.Sublist.eq_of_length hsub2 hlen.symm).symm

/-- C6 amended: the analyze_transactions normalizer sorts the parsed
records by value date ascending, keeps exactly the input records, and
is stable (records of any one date appear in their original input
order); the audit pipeline, by contrast, never sorts: load_data hands
the records to every downstream stage in raw input order. -/
theorem c6_normalizer_sorted_stable_amended (l : List PTxn) :
    (sortTxns l).Pairwise (fun a b => ptxnLe a b = true)
    ∧ (sortTxns l).Perm l
    ∧ (∀ d : Date, (sortTxns l).filter (fun t => t.date = d)
        = l.filter (fun t => t.date = d))
    ∧ (∀ (rows : List AuditRawRow) (out : List Txn), audit_load_data rows = some out →
        out.map (fun t => (t.txn_id, t.value_date))
          = rows.map (fun r => (r.txn_id, r.value_date))) := by
  refine ⟨?andSorted, ?andPerm, ?andStable, fun rows out h => audit_load_fields rows out h⟩
  case andSorted => exact (c6_sort_core l).1
  case andPerm => exact (c6_sort_core l).2.1
  case andStable => exact (c6_sort_core l).2.2

/-- C6 witness for the amended statement: the audit loader applied to
the concrete descending batch reproduces its input order. -/
theorem c6_normalizer_sorted_stable_amended_witness :
    [aTxn1, aTxn2].map (fun t => (t.txn_id, t.value_date))
      = [aRow1, aRow2].map (fun r => (r.txn_id, r.value_date)) := by
  exact (c6_normalizer_sorted_stable_amended []).2.2.2 [aRow1, aRow2]
    [aTxn1, aTxn2] (by decide)

/-- C3: for every month group of a date-sorted batch, the computed
opening balance is the implied pre-transaction balance of the month
group chronologically first record (balance - credit + debit), the
closing balance is the literal balance of its chronologically last
record, net change is closing minus opening, and the growth rate is
netChange / opening * 100 except that a zero opening short-circuits to
exactly 0 with no division. -/
theorem c3_monthly_rollup (l : List PTxn) (m : Nat × Nat)
    (hs : l.Pairwise (fun a b => ptxnLe a b = true))
    (hne : monthGroup l m ≠ []) :
    ∃ s, monthStats l m = some s
      ∧ s.opening = ((monthGroup l m).head hne).balance
          - ((monthGroup l m).head hne).credit + ((monthGroup l m).head hne).debit
      ∧ s.closing = ((monthGroup l m).getLast hne).balance
      ∧ s.net_change = s.closing - s.opening
      ∧ s.growth_rate = (if s.opening = 0 then 0 else s.net_change / s.opening * 100)
      ∧ s.total_credits = ((monthGroup l m).map (fun t => t.credit)).sum
      ∧ s.total_debits = ((monthGroup l m).map (fun t => t.debit)).sum
      ∧ s.count = (monthGroup l m).length := by
  have hgs : (monthGroup l m).Pairwise (fun a b => ptxnLe a b = true) :=
    List.Pairwise.sublist (List.filter_sublist l) hs
  have hms : (monthGroup l m).mergeSort ptxnLe = monthGroup l m :=
    List.mergeSort_of_sorted hgs
  unfold monthStats
  simp only [hms, List.head?_eq_head hne, List.getLast?_eq_getLast _ hne]
  refine ⟨_, rfl, by ring, rfl, rfl, ?_, rfl, rfl, rfl⟩
  by_cases h0 : ((monthGroup l m).head hne).balance + ((monthGroup l m).head hne).debit
      - ((monthGroup l m).head hne).credit = 0
  · simp [h0]
  · simp [h0]

/-- C3 witness: a two-record January 2026 batch; the rollup exists and
its closing balance is the last record balance 1300. -/
theorem c3_monthly_rollup_witness :
    ∃ s, monthStats ptxns (2026, 1) = some s ∧ s.closing = 1300 := by
  obtain ⟨s, hsome, _, hclose, _⟩ :=
    c3_monthly_rollup ptxns (2026, 1) (by decide) (by decide)
  refine ⟨s, hsome, ?_⟩
  rw [hclose]
  decide

/-- C2 counterexample: on an empty batch the summary stage fails with
the index error raised by transactions[0], not with an
EmptyDatasetError; no such error exists in the code. -/
theorem c2_empty_batch_counterexample :
    generate_summary_statistics [] = Except.error AuditError.indexError
    ∧ generate_summary_statistics []
        ≠ Except.error AuditError.emptyDatasetError := by
  refine ⟨rfl, fun h => ?_⟩
  exact AuditError.noConfusion (Except.error.inj h)

/-- C2 amended: for an input yielding zero valid records, the stages
requiring a first transaction (summary statistics, the first_txn
accessor) fail with an index error from indexing into the empty
sequence, and no input ever produces an EmptyDatasetError. -/
theorem c2_empty_batch_amended (txns : List Txn) (pl : List PTxn)
    (h1 : txns = []) (h2 : pl = []) :
    generate_summary_statistics txns = Except.error AuditError.indexError
    ∧ firstTxnStage pl = Except.error AuditError.indexError
    ∧ ∀ txns2 : List Txn,
        generate_summary_statistics txns2 ≠ Except.error AuditError.emptyDatasetError := by
  subst h1
  subst h2
  refine ⟨rfl, rfl, ?_⟩
  intro txns2
  match txns2 with
  | [] => simp [generate_summary_statistics]
  | first :: rest =>
    intro hcontra
    simp only [generate_summary_statistics] at hcontra
    split at hcontra
    · exact AuditError.noConfusion (Except.error.inj hcontra)
    · exact AuditError.noConfusion (Except.error.inj hcontra)
    · exact Except.noConfusion hcontra

/-- C2 witness for the amended statement, at the empty batch. -/
theorem c2_empty_batch_amended_witness :
    generate_summary_statistics [] = Except.error AuditError.indexError
    ∧ firstTxnStage [] = Except.error AuditError.indexError := by
  have h := c2_empty_batch_amended [] [] rfl rfl
  exact ⟨h.1, h.2.1⟩

/-- The parsing fold, started from any accumulator, appends the parses
of the surviving rows and the identifiers of the failing rows. -/
theorem parseAll_go (rows : List RawRow) (a : List PTxn) (b : List String) :
    rows.foldl (fun acc r =>
      match parseRow r with
      | some t => (acc.1 ++ [t], acc.2)
      | none => (acc.1, acc.2 ++ [r.txn_id])) (a, b)
    = (a ++ rows.filterMap parseRow,
       b ++ (rows.filter (fun r => (parseRow r).isNone)).map (fun r => r.txn_id)) := by
  induction rows generalizing a b with
  | nil => simp
  | cons r rest ih =>
    cases hr : parseRow r with
    | some t =>
      simp [List.foldl_cons, hr, ih, List.filterMap_cons, List.filter_cons]
    | none =>
      simp [List.foldl_cons, hr, ih, List.filterMap_cons, List.filter_cons]

/-- C7 counterexample: load_data of the audit pipeline has no
try/except: one row whose debit text is not numeric makes the whole
load raise, producing nothing at all, even though the other rows of the
batch parse fine; no row is skipped and no per-row error is reported. -/
theorem c7_audit_abort_counterexample :
    audit_load_data [aRow1, aRowBad, aRow2] = none
    ∧ audit_loadRow aRow1 = some aTxn1
    ∧ audit_loadRow aRow2 = some aTxn2 := by
  refine ⟨by decide, by decide, by decide⟩

/-- C7 amended: in the analyze_transactions loop every raw row is
either normalized or reported: the parsed output is exactly the
filterMap of the row parser (a bad row never aborts processing of the
remaining rows there), the error report lists exactly the original
identifiers of the failing rows, date parsing tries the day-first
layout first and only falls back to the month-first layout on failure,
and a value date fails to parse exactly when both layouts fail.  The
audit pipeline loader is not row-fault tolerant: it produces nothing
exactly when some row has amount text Decimal() rejects, so there one
bad row aborts the whole run. -/
theorem c7_row_fault_tolerance_amended (rows : List RawRow) :
    ((parseAll rows).1 = rows.filterMap parseRow)
    ∧ ((parseAll rows).2
        = (rows.filter (fun r => (parseRow r).isNone)).map (fun r => r.txn_id))
    ∧ (∀ (s : String) (dt : Date), parseDateDMY s = some dt → parseValueDate s = some dt)
    ∧ (∀ s : String, parseValueDate s = none
        ↔ (parseDateDMY s = none ∧ parseDateMDY s = none))
    ∧ (∀ arows : List AuditRawRow,
        audit_load_data arows = none ↔ ∃ r ∈ arows, audit_loadRow r = none) := by
  refine ⟨?_, ?_, ?_, ?_, audit_load_none_iff⟩
  · unfold parseAll
    rw [parseAll_go]
    simp
  · unfold parseAll
    rw [parseAll_go]
    simp
  · intro s dt h
    unfold parseValueDate
    rw [h]
  · intro s
    unfold parseValueDate
    cases hd : parseDateDMY s <;> simp

/-- C7 witness for the amended statement: a three-row batch whose middle
row has a date invalid in both layouts; the two good rows are both
normalized (the third via the month-first fallback), the bad row is
reported by identifier, the day-first layout wins when it succeeds, and
the audit loader aborts on its concrete bad-amount batch. -/
theorem c7_row_fault_tolerance_amended_witness :
    (parseAll [rowGood, rowBad, rowGood2]).1
      = [⟨"R1", ⟨2026, 1, 5⟩, "SWIGGY", 450, 0, 1000, "debit"⟩,
         ⟨"R3", ⟨2026, 1, 25⟩, "Y", 0, 20, 1010, "credit"⟩]
    ∧ (parseAll [rowGood, rowBad, rowGood2]).2 = ["R2"]
    ∧ parseValueDate "05/01/2026" = some ⟨2026, 1, 5⟩
    ∧ audit_load_data [aRow1, aRowBad, aRow2] = none := by
  have h := c7_row_fault_tolerance_amended [rowGood, rowBad, rowGood2]
  refine ⟨?_, ?_, h.2.2.1 "05/01/2026" ⟨2026, 1, 5⟩ (by decide), ?_⟩
  · rw [h.1]
    decide
  · rw [h.2.1]
    decide
  · exact (h.2.2.2.2 [aRow1, aRowBad, aRow2]).mpr
      ⟨aRowBad, by decide, by decide⟩

/-- Membership in the dict-key list: present in the source and not
already seen. -/
theorem mem_firstKeysAux {α : Type} [DecidableEq α] (l : List α) (seen : List α) (a : α) :
    a ∈ firstKeysAux seen l ↔ a ∈ l ∧ a ∉ seen := by
  induction l generalizing seen with
  | nil => simp [firstKeysAux]
  | cons b rest ih =>
    by_cases hb : b ∈ seen
    · rw [firstKeysAux, if_pos hb, ih]
      constructor
      · rintro ⟨h1, h2⟩
        exact ⟨List.mem_cons_of_mem b h1, h2⟩
      · rintro ⟨h1, h2⟩
        rcases List.mem_cons.mp h1 with rfl | h1r
        · exact absurd hb h2
        · exact ⟨h1r, h2⟩
    · rw [firstKeysAux, if_neg hb]
      by_cases hab : a = b
      · subst hab
        simp [hb]
      · rw [List.mem_cons]
        rw [ih]
        simp only [List.mem_cons, hab, false_or]

theorem mem_firstKeys {α : Type} [DecidableEq α] (l : List α) (a : α) :
    a ∈ firstKeys l ↔ a ∈ l := by
  rw [firstKeys, mem_firstKeysAux]
  simp

/-- The dict-key list has no duplicates. -/
theorem nodup_firstKeysAux {α : Type} [DecidableEq α] (l : List α) (seen : List α) :
    (firstKeysAux seen l).Nodup := by
  induction l generalizing seen with
  | nil => simp [firstKeysAux]
  | cons b rest ih =>
    by_cases hb : b ∈ seen
    · rw [firstKeysAux, if_pos hb]
      exact ih seen
    · rw [firstKeysAux, if_neg hb]
      rw [List.nodup_cons]
      refine ⟨?_, ih (b :: seen)⟩
      rw [mem_firstKeysAux]
      rintro ⟨-, h2⟩
      exact h2 (List.mem_cons_self b seen)

theorem nodup_firstKeys {α : Type} [DecidableEq α] (l : List α) : (firstKeys l).Nodup :=
  nodup_firstKeysAux l []

/-- Mapping after filtering is a filterMap. -/
theorem map_filter_eq_filterMap {α β : Type} (g : α → β) (p : α → Bool) (l : List α) :
    (l.filter p).map g = l.filterMap (fun x => if p x then some (g x) else none) := by
  induction l with
  | nil => rfl
  | cons x xs ih =>
    by_cases h : p x = true
    · simp [List.filter_cons, h, List.filterMap_cons, ih]
    · simp [List.filter_cons, h, List.filterMap_cons, ih]

/-- The doubly-grouped description list the duplicate pass builds for a
date and amount equals the cluster read off from the batch directly. -/
theorem cluster_spec (txns : List Txn) (d : String) (a : ℚ) :
    ((((dupEntries txns).filter (fun e => e.1 = d)).map (fun e => e.2)).filter
        (fun e => e.1 = a)).map (fun e => e.2)
      = cluster txns d a := by
  unfold dupEntries cluster
  rw [List.filter_filterMap, List.map_filterMap, List.filter_filterMap,
    List.map_filterMap, map_filter_eq_filterMap]
  congr 1
  funext t
  by_cases h1 : (0 : ℚ) < effAmount t
  · by_cases h2 : t.value_date = d
    · by_cases h3 : effAmount t = a
      · have h1a : (0 : ℚ) < a := h3 ▸ h1
        simp [entryOf, h1, h1a, h2, h3, Option.filter]
      · simp [entryOf, h1, h2, h3, Option.filter]
    · by_cases h3 : effAmount t = a
      · have h1a : (0 : ℚ) < a := h3 ▸ h1
        simp [entryOf, h1, h1a, h2, h3, Option.filter]
      · simp [entryOf, h1, h2, h3, Option.filter]
  · simp [entryOf, h1, Option.filter]

/-- Everything the large-transaction pass emits is a large anomaly. -/
theorem largeAnomalies_shape (txns : List Txn) (x : Anomaly)
    (hx : x ∈ largeAnomalies txns) :
    ∃ dt amt mrc ds, x = Anomaly.large dt amt mrc ds := by
  unfold largeAnomalies at hx
  rw [List.mem_filterMap] at hx
  obtain ⟨t, -, hsome⟩ := hx
  rw [Option.ite_none_right_eq_some] at hsome
  exact ⟨_, _, _, _, (Option.some.inj hsome.2).symm⟩

/-- Everything the duplicate-amount pass emits is a duplicate anomaly,
carrying its date key, one of its amount keys, and that cluster with
its size at least two. -/
theorem duplicateAnomalies_shape (txns : List Txn) (x : Anomaly)
    (hx : x ∈ duplicateAnomalies txns) :
    ∃ dt amt,
      dt ∈ firstKeys ((dupEntries txns).map (fun e => e.1))
      ∧ amt ∈ firstKeys ((((dupEntries txns).filter (fun e => e.1 = dt)).map
          (fun e => e.2)).map (fun e => e.1))
      ∧ 1 < (cluster txns dt amt).length
      ∧ x = Anomaly.dup dt amt (cluster txns dt amt).length (cluster txns dt amt) := by
  unfold duplicateAnomalies at hx
  rw [List.mem_flatMap] at hx
  obtain ⟨dt, hdt, hx2⟩ := hx
  unfold dupAnomaliesForDate at hx2
  rw [List.mem_filterMap] at hx2
  obtain ⟨amt, hamt, hsome⟩ := hx2
  rw [Option.ite_none_right_eq_some] at hsome
  obtain ⟨hlen, heq⟩ := hsome
  rw [cluster_spec] at hlen heq
  exact ⟨dt, amt, hdt, hamt, hlen, (Option.some.inj heq).symm⟩

/-- Conversely, a qualifying date and amount key pair puts its duplicate
anomaly in the output. -/
theorem duplicateAnomalies_intro (txns : List Txn) (dt : String) (amt : ℚ)
    (hdt : dt ∈ firstKeys ((dupEntries txns).map (fun e => e.1)))
    (hamt : amt ∈ firstKeys ((((dupEntries txns).filter (fun e => e.1 = dt)).map
        (fun e => e.2)).map (fun e => e.1)))
    (hlen : 1 < (cluster txns dt amt).length) :
    Anomaly.dup dt amt (cluster txns dt amt).length (cluster txns dt amt)
      ∈ duplicateAnomalies txns := by
  unfold duplicateAnomalies
  rw [List.mem_flatMap]
  refine ⟨dt, hdt, ?_⟩
  unfold dupAnomaliesForDate
  rw [List.mem_filterMap]
  refine ⟨amt, hamt, ?_⟩
  rw [Option.ite_none_right_eq_some]
  rw [cluster_spec]
  exact ⟨hlen, rfl⟩

/-- A member of one duplicate cluster witnesses both grouping keys. -/
theorem cluster_keys (txns : List Txn) (dt : String) (amt : ℚ) (t : Txn)
    (ht : t ∈ txns) (h1 : t.value_date = dt) (h2 : effAmount t = amt)
    (h3 : 0 < effAmount t) :
    dt ∈ firstKeys ((dupEntries txns).map (fun e => e.1))
    ∧ amt ∈ firstKeys ((((dupEntries txns).filter (fun e => e.1 = dt)).map
        (fun e => e.2)).map (fun e => e.1)) := by
  have he : entryOf t = some (dt, amt, takeStr t.description 50) := by
    unfold entryOf
    rw [if_pos h3, h1, h2]
  have hmem : (dt, amt, takeStr t.description 50) ∈ dupEntries txns := by
    unfold dupEntries
    rw [List.mem_filterMap]
    exact ⟨t, ht, he⟩
  constructor
  · rw [mem_firstKeys]
    exact List.mem_map_of_mem (fun e => e.1) hmem
  · rw [mem_firstKeys]
    have hmf : (dt, amt, takeStr t.description 50)
        ∈ (dupEntries txns).filter (fun e => e.1 = dt) := by
      rw [List.mem_filter]
      exact ⟨hmem, by simp⟩
    exact List.mem_map_of_mem _ (List.mem_map_of_mem (fun e => e.2) hmf)

/-- A nonempty cluster contains a transaction with the cluster keys. -/
theorem cluster_nonempty_witness (txns : List Txn) (dt : String) (amt : ℚ)
    (h : cluster txns dt amt ≠ []) :
    ∃ t ∈ txns, t.value_date = dt ∧ effAmount t = amt ∧ 0 < effAmount t := by
  unfold cluster at h
  have h2 : txns.filter
      (fun t => decide (t.value_date = dt ∧ effAmount t = amt ∧ 0 < effAmount t)) ≠ [] := by
    intro hc
    rw [hc] at h
    exact h rfl
  obtain ⟨t, ht⟩ := List.exists_mem_of_ne_nil _ h2
  rw [List.mem_filter] at ht
  have hprops := of_decide_eq_true ht.2
  exact ⟨t, ht.1, hprops.1, hprops.2.1, hprops.2.2⟩

/-- A filterMap over a duplicate-free index list in which exactly one
index produces the target yields the target exactly once. -/
theorem count_filterMap_unique {β γ : Type} [DecidableEq γ] {l : List β} {b : β}
    {f : β → Option γ} {target : γ} (hnd : l.Nodup) (hb : b ∈ l)
    (h1 : f b = some target) (h0 : ∀ x ∈ l, x ≠ b → f x ≠ some target) :
    (l.filterMap f).count target = 1 := by
  induction l with
  | nil => cases hb
  | cons a rest ih =>
    rw [List.filterMap_cons]
    rcases List.mem_cons.mp hb with rfl | hbr
    · rw [h1]
      have h0r : ∀ x ∈ rest, f x ≠ some target := by
        intro x hx
        exact h0 x (List.mem_cons_of_mem b hx)
          (fun he => (List.nodup_cons.mp hnd).1 (he ▸ hx))
      have hz : (rest.filterMap f).count target = 0 := by
        rw [List.count_eq_zero]
        intro hmem
        rw [List.mem_filterMap] at hmem
        obtain ⟨x, hx, hfx⟩ := hmem
        exact h0r x hx hfx
      simp [List.count_cons, hz]
    · have hab : a ≠ b := fun he => (List.nodup_cons.mp hnd).1 (he ▸ hbr)
      have hrec := ih (List.nodup_cons.mp hnd).2 hbr
        (fun x hx hxb => h0 x (List.mem_cons_of_mem a hx) hxb)
      cases hfa : f a with
      | none => exact hrec
      | some y =>
        have hy : y ≠ target := fun he => h0 a (List.mem_cons_self a rest) hab (by rw [hfa, he])
        simp [List.count_cons, hy, hrec]

/-- A flatMap over a duplicate-free index list in which exactly one
index contributes the target once yields the target exactly once. -/
theorem count_flatMap_unique {β γ : Type} [DecidableEq γ] {l : List β} {b : β}
    {f : β → List γ} {target : γ} (hnd : l.Nodup) (hb : b ∈ l)
    (h1 : (f b).count target = 1) (h0 : ∀ x ∈ l, x ≠ b → (f x).count target = 0) :
    (l.flatMap f).count target = 1 := by
  induction l with
  | nil => cases hb
  | cons a rest ih =>
    rw [List.flatMap_cons, List.count_append]
    rcases List.mem_cons.mp hb with rfl | hbr
    · have h0r : ∀ x ∈ rest, (f x).count target = 0 := by
        intro x hx
        exact h0 x (List.mem_cons_of_mem b hx)
          (fun he => (List.nodup_cons.mp hnd).1 (he ▸ hx))
      have hz : (rest.flatMap f).count target = 0 := by
        rw [List.count_eq_zero]
        intro hmem
        rw [List.mem_flatMap] at hmem
        obtain ⟨x, hx, hmx⟩ := hmem
        have := h0r x hx
        rw [List.count_eq_zero] at this
        exact this hmx
      rw [h1, hz]
    · have hab : a ≠ b := fun he => (List.nodup_cons.mp hnd).1 (he ▸ hbr)
      have hrec := ih (List.nodup_cons.mp hnd).2 hbr
        (fun x hx hxb => h0 x (List.mem_cons_of_mem a hx) hxb)
      rw [h0 a (List.mem_cons_self a rest) hab, hrec]

/-- Membership of a large anomaly built from a debit row is equivalent
to the strict three-times-mean condition on that row. -/
theorem large_mem_iff (txns : List Txn) (t : Txn) (ht : t ∈ debitsOf txns) :
    Anomaly.large t.value_date t.debit (extract_merchant t.description)
        (takeStr t.description 100) ∈ detect_anomalies txns
      ↔ avg_debit txns * 3 < t.debit := by
  unfold detect_anomalies
  rw [List.mem_append]
  constructor
  · rintro (hL | hD)
    · unfold largeAnomalies at hL
      rw [List.mem_filterMap] at hL
      obtain ⟨u, hu, hsome⟩ := hL
      rw [Option.ite_none_right_eq_some] at hsome
      obtain ⟨hcond, heq⟩ := hsome
      have hamt : u.debit = t.debit := by
        have := Option.some.inj heq
        injection this with h1 h2 h3 h4
      rw [hamt] at hcond
      exact hcond
    · obtain ⟨dt, amt, -, -, -, heq⟩ := duplicateAnomalies_shape txns _ hD
      exact absurd heq (by simp)
  · intro hcond
    left
    unfold largeAnomalies
    rw [List.mem_filterMap]
    exact ⟨t, ht, by rw [if_pos hcond]⟩

/-- Membership of a duplicate anomaly is equivalent to naming one
duplicate cluster exactly: its description list, its size as the count,
and size at least two. -/
theorem dup_mem_iff (txns : List Txn) (d : String) (a : ℚ) (c : Nat)
    (descs : List String) :
    Anomaly.dup d a c descs ∈ detect_anomalies txns
      ↔ (descs = cluster txns d a ∧ c = descs.length ∧ 2 ≤ c) := by
  unfold detect_anomalies
  rw [List.mem_append]
  constructor
  · rintro (hL | hD)
    · obtain ⟨dt, amt, mrc, ds, heq⟩ := largeAnomalies_shape txns _ hL
      exact absurd heq (by simp)
    · obtain ⟨dt, amt, -, -, hlen, heq⟩ := duplicateAnomalies_shape txns _ hD
      injection heq with h1 h2 h3 h4
      subst h1
      subst h2
      subst h3
      subst h4
      exact ⟨rfl, rfl, hlen⟩
  · rintro ⟨hdescs, hc, h2c⟩
    right
    have hne : cluster txns d a ≠ [] := by
      intro hnil
      rw [hdescs, hnil] at hc
      simp at hc
      omega
    obtain ⟨t, ht, ht1, ht2, ht3⟩ := cluster_nonempty_witness txns d a hne
    obtain ⟨hk1, hk2⟩ := cluster_keys txns d a t ht ht1 ht2 ht3
    have hlen : 1 < (cluster txns d a).length := by
      rw [hdescs] at hc
      omega
    have := duplicateAnomalies_intro txns d a hk1 hk2 hlen
    have hrw : Anomaly.dup d a c descs
        = Anomaly.dup d a (cluster txns d a).length (cluster txns d a) := by
      rw [hdescs, hc, hdescs]
    rw [hrw]
    exact this

/-- Each duplicate cluster of size at least two is reported exactly
once: the date keys are distinct, the amount keys within a date are
distinct, and the emitted anomaly pins both keys. -/
theorem dup_count_one (txns : List Txn) (d : String) (a : ℚ)
    (h2 : 2 ≤ (cluster txns d a).length) :
    (detect_anomalies txns).count
        (Anomaly.dup d a (cluster txns d a).length (cluster txns d a)) = 1 := by
  have hne : cluster txns d a ≠ [] := by
    intro hnil
    rw [hnil] at h2
    simp at h2
  obtain ⟨t, ht, ht1, ht2, ht3⟩ := cluster_nonempty_witness txns d a hne
  obtain ⟨hk1, hk2⟩ := cluster_keys txns d a t ht ht1 ht2 ht3
  have hlen : 1 < (cluster txns d a).length := h2
  unfold detect_anomalies
  rw [List.count_append]
  have hlarge : (largeAnomalies txns).count
      (Anomaly.dup d a (cluster txns d a).length (cluster txns d a)) = 0 := by
    rw [List.count_eq_zero]
    intro hmem
    obtain ⟨dt, amt, mrc, ds, heq⟩ := largeAnomalies_shape txns _ hmem
    exact absurd heq (by simp)
  rw [hlarge]
  rw [Nat.zero_add]
  unfold duplicateAnomalies
  refine count_flatMap_unique (nodup_firstKeys _) hk1 ?_ ?_
  · unfold dupAnomaliesForDate
    refine count_filterMap_unique (nodup_firstKeys _) hk2 ?_ ?_
    · rw [cluster_spec, if_pos hlen]
    · intro amt hamt hne2
      rw [cluster_spec]
      intro hsome
      rw [Option.ite_none_right_eq_some] at hsome
      have := Option.some.inj hsome.2
      injection this with e1 e2 e3 e4
      exact hne2 e2
  · intro dt hdt hne2
    rw [List.count_eq_zero]
    intro hmem
    unfold dupAnomaliesForDate at hmem
    rw [List.mem_filterMap] at hmem
    obtain ⟨amt, hamt, hsome⟩ := hmem
    rw [Option.ite_none_right_eq_some] at hsome
    have := Option.some.inj hsome.2
    injection this with e1 e2 e3 e4
    exact hne2 e1

/-- C5: the anomaly list contains a LargeTransaction entry for a debit
row exactly when its debit exceeds three times the mean debit; it
contains a DuplicateAmount entry exactly for the clusters of two or
more same-date same-positive-amount transactions, carrying the cluster
count and truncated descriptions, and exactly one entry per cluster;
and the three-identical-1500-debits example yields precisely one
DuplicateAmount anomaly with count 3. -/
theorem c5_anomaly_detection (txns : List Txn) :
    (∀ t ∈ debitsOf txns,
      (Anomaly.large t.value_date t.debit (extract_merchant t.description)
          (takeStr t.description 100) ∈ detect_anomalies txns
        ↔ avg_debit txns * 3 < t.debit))
    ∧ (∀ (d : String) (a : ℚ) (c : Nat) (descs : List String),
        Anomaly.dup d a c descs ∈ detect_anomalies txns
          ↔ (descs = cluster txns d a ∧ c = descs.length ∧ 2 ≤ c))
    ∧ (∀ (d : String) (a : ℚ), 2 ≤ (cluster txns d a).length →
        (detect_anomalies txns).count
            (Anomaly.dup d a (cluster txns d a).length (cluster txns d a)) = 1)
    ∧ detect_anomalies dupTxns
        = [Anomaly.dup "10/01/2026" 1500 3 ["SHOP A", "SHOP B", "SHOP C"]] := by
  refine ⟨large_mem_iff txns, dup_mem_iff txns, dup_count_one txns, ?_⟩
  have hs : ¬ ("debit" : String) = "credit" := by decide
  have h1 : avg_debit dupTxns = 1500 := by
    norm_num [avg_debit, debitsOf, dupTxns, dupA, dupB, dupC, List.filter_cons, hs]
  have h2 : largeAnomalies dupTxns = [] := by
    unfold largeAnomalies
    rw [h1]
    norm_num [debitsOf, dupTxns, dupA, dupB, dupC, List.filter_cons,
      List.filterMap_cons, hs]
  have h3 : duplicateAnomalies dupTxns
      = [Anomaly.dup "10/01/2026" 1500 3 ["SHOP A", "SHOP B", "SHOP C"]] := by
    decide
  unfold detect_anomalies
  rw [h2, h3]
  rfl

/-- C5 witness: on the three-duplicates batch the cluster anomaly is a
member, is counted exactly once, and the 1500 debits are not large
transactions. -/
theorem c5_anomaly_detection_witness :
    Anomaly.dup "10/01/2026" 1500 3 ["SHOP A", "SHOP B", "SHOP C"]
        ∈ detect_anomalies dupTxns
    ∧ (detect_anomalies dupTxns).count
        (Anomaly.dup "10/01/2026" 1500 3 ["SHOP A", "SHOP B", "SHOP C"]) = 1
    ∧ Anomaly.large dupA.value_date dupA.debit (extract_merchant dupA.description)
        (takeStr dupA.description 100) ∉ detect_anomalies dupTxns := by
  have h := c5_anomaly_detection dupTxns
  have hcl : cluster dupTxns "10/01/2026" (1500 : ℚ)
      = ["SHOP A", "SHOP B", "SHOP C"] := by decide
  refine ⟨?_, ?_, ?_⟩
  · exact (h.2.1 "10/01/2026" 1500 3 ["SHOP A", "SHOP B", "SHOP C"]).mpr
      ⟨hcl.symm, rfl, by omega⟩
  · have hco := h.2.2.1 "10/01/2026" 1500 (by rw [hcl]; decide)
    rw [hcl] at hco
    exact hco
  · intro hmem
    have hlt := (h.1 dupA (by decide)).mp hmem
    have hs : ¬ ("debit" : String) = "credit" := by decide
    have h1 : avg_debit dupTxns = 1500 := by
      norm_num [avg_debit, debitsOf, dupTxns, dupA, dupB, dupC, List.filter_cons, hs]
    rw [h1] at hlt
    norm_num [dupA] at hlt

/-- One step of the pattern fold bumps the size counter selected by the
bucket of a debit-typed row and leaves the counters alone otherwise. -/
theorem patternsStep_sizeCount (p : Patterns) (t : Txn) (q : Patterns) (b : SizeBucket)
    (h : patternsStep p t = some q) :
    sizeCount q b = sizeCount p b
      + (if t.txn_type = "debit" ∧ sizeBucket t.debit = b then 1 else 0) := by
  cases hd : dayKey? t with
  | none =>
    simp only [patternsStep, hd] at h
    exact Option.noConfusion h
  | some day =>
    simp only [patternsStep, hd] at h
    by_cases ht : t.txn_type = "debit"
    · rw [if_pos ht] at h
      have hq := (Option.some.inj h).symm
      subst hq
      by_cases h1 : t.debit < 500
      · have hb : sizeBucket t.debit = SizeBucket.small := by
          unfold sizeBucket
          rw [if_pos h1]
        rw [if_pos h1]
        cases b <;> simp_all [sizeCount]
      · by_cases h2 : t.debit < 5000
        · have hb : sizeBucket t.debit = SizeBucket.medium := by
            unfold sizeBucket
            rw [if_neg h1, if_pos h2]
          rw [if_neg h1, if_pos h2]
          cases b <;> simp_all [sizeCount]
        · by_cases h3 : t.debit < 50000
          · have hb : sizeBucket t.debit = SizeBucket.large := by
              unfold sizeBucket
              rw [if_neg h1, if_neg h2, if_pos h3]
            rw [if_neg h1, if_neg h2, if_pos h3]
            cases b <;> simp_all [sizeCount]
          · have hb : sizeBucket t.debit = SizeBucket.very_large := by
              unfold sizeBucket
              rw [if_neg h1, if_neg h2, if_neg h3]
            rw [if_neg h1, if_neg h2, if_neg h3]
            cases b <;> simp_all [sizeCount]
    · rw [if_neg ht] at h
      have hq := (Option.some.inj h).symm
      subst hq
      cases b <;> simp [sizeCount, ht]

/-- The pattern fold, from any starting tallies, adds one to the size
counter of bucket b for exactly the debit-typed rows landing in b. -/
theorem analyze_go_sizeCount (txns : List Txn) (b : SizeBucket) (p0 q : Patterns)
    (h : txns.foldlM patternsStep p0 = some q) :
    sizeCount q b = sizeCount p0 b
      + (txns.filter (fun t => t.txn_type = "debit")).countP
          (fun t => sizeBucket t.debit = b) := by
  induction txns generalizing p0 with
  | nil =>
    have hq := (Option.some.inj h).symm
    subst hq
    simp
  | cons t rest ih =>
    rw [List.foldlM_cons] at h
    cases hstep : patternsStep p0 t with
    | none =>
      rw [hstep] at h
      exact absurd h (by simp)
    | some p1 =>
      rw [hstep] at h
      simp only [Option.bind_eq_bind, Option.some_bind] at h
      have hrec := ih p1 h
      have hone := patternsStep_sizeCount p0 t p1 b hstep
      by_cases ht : t.txn_type = "debit"
      · have hfil : (t :: rest).filter (fun t => decide (t.txn_type = "debit"))
            = t :: rest.filter (fun t => decide (t.txn_type = "debit")) := by
          simp [List.filter_cons, ht]
        by_cases hbt : sizeBucket t.debit = b
        · rw [hfil, List.countP_cons, hrec]
          simp only [ht, hbt, and_self, if_true] at hone
          simp [hbt, hone]
          omega
        · rw [hfil, List.countP_cons, hrec]
          simp only [ht, hbt, and_false, if_false] at hone
          simp [hbt, hone]
      · have hone2 : sizeCount p1 b = sizeCount p0 b := by
          simpa [ht] using hone
        have hfil : (t :: rest).filter (fun t => decide (t.txn_type = "debit"))
            = rest.filter (fun t => decide (t.txn_type = "debit")) := by
          simp [List.filter_cons, ht]
        rw [hfil, hrec, hone2]

/-- The four bucket predicates partition any list of rows. -/
theorem bucket_countP_partition (l : List Txn) :
    l.countP (fun t => sizeBucket t.debit = SizeBucket.small)
    + l.countP (fun t => sizeBucket t.debit = SizeBucket.medium)
    + l.countP (fun t => sizeBucket t.debit = SizeBucket.large)
    + l.countP (fun t => sizeBucket t.debit = SizeBucket.very_large) = l.length := by
  induction l with
  | nil => rfl
  | cons t rest ih =>
    simp only [List.countP_cons, List.length_cons]
    cases hb : sizeBucket t.debit <;> simp [hb] <;> omega

/-- C8: the size classification puts every debit row in exactly one of
the four buckets with boundaries small below 500, medium from 500 below
5000, large from 5000 below 50000, very large from 50000 on; a debit of
exactly 500 lands in medium and one of 450 in small; and in the
patterns output the four counters tally the debit-typed rows by bucket
and sum to their number. -/
theorem c8_size_buckets :
    (∀ a : ℚ, (sizeBucket a = SizeBucket.small ↔ a < 500)
      ∧ (sizeBucket a = SizeBucket.medium ↔ 500 ≤ a ∧ a < 5000)
      ∧ (sizeBucket a = SizeBucket.large ↔ 5000 ≤ a ∧ a < 50000)
      ∧ (sizeBucket a = SizeBucket.very_large ↔ 50000 ≤ a))
    ∧ sizeBucket 500 = SizeBucket.medium
    ∧ sizeBucket 450 = SizeBucket.small
    ∧ (∀ (txns : List Txn) (q : Patterns), analyze_patterns txns = some q →
        (∀ b : SizeBucket, sizeCount q b
          = (txns.filter (fun t => t.txn_type = "debit")).countP
              (fun t => sizeBucket t.debit = b))
        ∧ q.size_small + q.size_medium + q.size_large + q.size_very_large
            = (txns.filter (fun t => t.txn_type = "debit")).length) := by
  refine ⟨?_, by decide, by decide, ?_⟩
  · intro a
    refine ⟨⟨?_, ?_⟩, ⟨?_, ?_⟩, ⟨?_, ?_⟩, ⟨?_, ?_⟩⟩
    · intro h
      unfold sizeBucket at h
      split_ifs at h with h1 h2 h3
      exact h1
    · intro h1
      unfold sizeBucket
      rw [if_pos h1]
    · intro h
      unfold sizeBucket at h
      split_ifs at h with h1 h2 h3
      exact ⟨not_lt.mp h1, h2⟩
    · rintro ⟨hge, hlt⟩
      unfold sizeBucket
      rw [if_neg (not_lt.mpr hge), if_pos hlt]
    · intro h
      unfold sizeBucket at h
      split_ifs at h with h1 h2 h3
      exact ⟨not_lt.mp h2, h3⟩
    · rintro ⟨hge, hlt⟩
      unfold sizeBucket
      rw [if_neg (not_lt.mpr (le_trans (by norm_num) hge)),
        if_neg (not_lt.mpr hge), if_pos hlt]
    · intro h
      unfold sizeBucket at h
      split_ifs at h with h1 h2 h3
      exact not_lt.mp h3
    · intro hge
      unfold sizeBucket
      rw [if_neg (not_lt.mpr (le_trans (by norm_num) hge)),
        if_neg (not_lt.mpr (le_trans (by norm_num) hge)),
        if_neg (not_lt.mpr hge)]
  · intro txns q hq
    have hcnt : ∀ b : SizeBucket, sizeCount q b
        = (txns.filter (fun t => t.txn_type = "debit")).countP
            (fun t => sizeBucket t.debit = b) := by
      intro b
      have hz : sizeCount emptyPatterns b = 0 := by cases b <;> rfl
      have hgo := analyze_go_sizeCount txns b emptyPatterns q hq
      rw [hz, Nat.zero_add] at hgo
      exact hgo
    refine ⟨hcnt, ?_⟩
    have hs := hcnt SizeBucket.small
    have hm := hcnt SizeBucket.medium
    have hl := hcnt SizeBucket.large
    have hv := hcnt SizeBucket.very_large
    simp only [sizeCount] at hs hm hl hv
    rw [hs, hm, hl, hv]
    exact bucket_countP_partition _

/-- C8 witness: the boundary facts applied concretely: 500 is medium
(so 500 is at least 500 and below 5000) and the one debit row of 100
lands in the small counter. -/
theorem c8_size_buckets_witness :
    sizeBucket 500 = SizeBucket.medium
    ∧ ((500 : ℚ) ≤ 500 ∧ (500 : ℚ) < 5000)
    ∧ ∃ q, analyze_patterns [c9txn] = some q ∧ q.size_small = 1 := by
  have h := c8_size_buckets
  obtain ⟨q, hq⟩ : ∃ q, analyze_patterns [c9txn] = some q := ⟨_, rfl⟩
  refine ⟨h.2.1, (h.1 500).2.1.mp h.2.1, q, hq, ?_⟩
  have h4 := (h.2.2.2 [c9txn] q hq).1 SizeBucket.small
  simp only [sizeCount] at h4
  rw [h4]
  decide

/-- C9: the day-of-month histogram of analyze_patterns is keyed by
int(value_date.split(slash)[1]).  For a row dated 05/01/2026 (day 5,
month 1 in the day-first layout the same class parses with) the
histogram bumps key 1 (the month component) and leaves key 5 (the day
component) at zero. -/
theorem c9_day_histogram_uses_month_component :
    ∃ p, analyze_patterns [c9txn] = some p
      ∧ p.day_of_month 1 = 1
      ∧ p.day_of_month 5 = 0
      ∧ parseDateDMY c9txn.value_date = some ⟨2026, 1, 5⟩
      ∧ (⟨2026, 1, 5⟩ : Date).day = 5
      ∧ dayKey? c9txn = some 1 := by
  refine ⟨_, rfl, ?_, ?_, by decide, rfl, by decide⟩
  · decide
  · decide

end ExpenseTracker
